import Mathlib

/-!
# Verification of the tektor cross-reference validation engine

A shallow embedding of the validator package (`internal/validator`:
`parameter.go`, `pipeline.go`, `workspace.go`, and the result-reference
validator file) of the tektor repository, together with proofs about the
behaviour of its parameter, result, and workspace validators and of the
pipeline orchestrator.

Modelling conventions:
* Go strings are Lean `String`s; byte/rune distinctions do not matter for the
  ASCII patterns involved.
* `hashicorp/go-multierror` accumulation is modelled as a `List` of structured
  error values; `multierror.Append(err, e)` appends one element, and appending
  a multierror (as on the flattening call sites) appends each of its elements.
  Rendering an error to its Go message text is a separate function `VError.render`.
* Go maps keyed by strings are modelled as association lists.  Where the Go
  code only performs lookups and tasks/workspaces have distinct names (the
  situation every theorem below is stated for, matching Tekton's structural
  requirements), first-match lookup agrees with Go map semantics.  Map
  iteration order in Go is unspecified; the model iterates in insertion order,
  and no theorem below depends on that order.
* `context.Context`, the network resolvers, and the Tekton library call
  `p.Validate` are external collaborators; they enter the model as explicit
  arguments (a resolver function and a list of structural errors).
-/

/-- `v1.ParamValue`: the value side of a parameter assignment.  `type_` is the
declared value type (`""` when unspecified, which Tekton treats as string). -/
structure ParamValue where
  type_ : String
  stringVal : String
deriving DecidableEq

/-- `v1.Param`: a caller's parameter assignment (name plus value). -/
structure Param where
  name : String
  value : ParamValue
deriving DecidableEq

/-- `v1.ParamSpec`: a declared parameter contract.  `default_ = none` models a
nil `Default` pointer, i.e. a required parameter. -/
structure ParamSpec where
  name : String
  type_ : String
  default_ : Option ParamValue
deriving DecidableEq

/-- `v1.TaskResult`: a result declared by a task (`type_ = ""` when absent). -/
structure TaskResult where
  name : String
  type_ : String
deriving DecidableEq

/-- `v1.ResultRef`: a reference to a producer task's result. -/
structure ResultRef where
  pipelineTask : String
  result : String
deriving DecidableEq

/-- `v1.WorkspaceDeclaration`: a workspace declared by a task. -/
structure WorkspaceDeclaration where
  name : String
  optional : Bool
  mountPath : String
deriving DecidableEq

/-- `v1.WorkspacePipelineTaskBinding`: how a pipeline task satisfies one of its
task-level workspaces.  `workspace` names a pipeline-level workspace and may be
the empty string (the field is optional in the YAML). -/
structure WorkspacePipelineTaskBinding where
  name : String
  workspace : String
  subPath : String
deriving DecidableEq

/-- `v1.PipelineWorkspaceDeclaration`: a pipeline-level workspace. -/
structure PipelineWorkspaceDeclaration where
  name : String
deriving DecidableEq

/-- `resultUsageContext` from the result-reference validator file. -/
structure ResultUsageContext where
  location : String
  expectedType : String
  actualUsage : String
deriving DecidableEq

/-- `v1.TaskSpec`, restricted to the contract the validators consume:
parameters, results and workspaces. -/
structure TaskSpec where
  params : List ParamSpec
  results : List TaskResult
  workspaces : List WorkspaceDeclaration
deriving DecidableEq

/-- `v1.PipelineResult`: a pipeline-level output result. -/
structure PipelineResult where
  name : String
  value : ParamValue
deriving DecidableEq

/-- `v1.PipelineTask`: one task of a pipeline, with its assignments, its
matrix-supplied parameters, and its workspace bindings. -/
structure PipelineTask where
  name : String
  params : List Param
  matrix : List Param
  workspaces : List WorkspacePipelineTaskBinding
deriving DecidableEq

/-- `v1.PipelineSpec`, restricted to the fields the validators consume. -/
structure PipelineSpec where
  params : List ParamSpec
  tasks : List PipelineTask
  finallyTasks : List PipelineTask
  workspaces : List PipelineWorkspaceDeclaration
  results : List PipelineResult
deriving DecidableEq

/-- The structured error records produced by the validators.  Each constructor
corresponds to one `fmt.Errorf` call site; `VError.render` below reproduces the
exact message text. -/
inductive VError where
  | paramNotDefined (name : String)
  | paramIncorrectType (name got want : String)
  | paramRequired (name : String)
  | paramRefEmpty
  | paramRefUndefined (name : String)
  | resultNonExistentTask (result task : String)
  | nonExistentResult (result task : String)
  | resultTypeMismatch (result task definedType expectedType location usage : String)
  | wsRequired (name : String)
  | wsNonExistent (declName wsName : String)
  | wsPathConflict (name mountPath subPath : String)
  | wsBindingNoDecl (name : String)
  | wsUnused (name : String)
deriving DecidableEq

/-- The Go message text of each error (the `fmt.Errorf` format string with its
arguments spliced in; `%q` is modelled as surrounding double quotes). -/
def VError.render : VError → String
  | .paramNotDefined name =>
      "\"" ++ name ++ "\" parameter is not defined by the Task"
  | .paramIncorrectType name got want =>
      "\"" ++ name ++ "\" parameter has the incorrect type, got \"" ++ got ++
        "\", want \"" ++ want ++ "\""
  | .paramRequired name => "\"" ++ name ++ "\" parameter is required"
  | .paramRefEmpty => "parameter reference $(params.) not defined in pipeline spec"
  | .paramRefUndefined name =>
      "parameter reference $(params." ++ name ++ ") not defined in pipeline spec"
  | .resultNonExistentTask result task =>
      result ++ " result from non-existent " ++ task ++ " PipelineTask"
  | .nonExistentResult result task =>
      "non-existent " ++ result ++ " result from " ++ task ++ " PipelineTask"
  | .resultTypeMismatch result task definedType expectedType location usage =>
      "result type mismatch: " ++ result ++ " result from " ++ task ++
        " PipelineTask is defined as type \"" ++ definedType ++
        "\" but used as type \"" ++ expectedType ++ "\" in " ++ location ++
        " (usage: " ++ usage ++ ")"
  | .wsRequired name => "required workspace \"" ++ name ++ "\" is not provided"
  | .wsNonExistent declName wsName =>
      "workspace binding \"" ++ declName ++
        "\" references non-existent pipeline workspace \"" ++ wsName ++ "\""
  | .wsPathConflict name mountPath subPath =>
      "workspace \"" ++ name ++ "\": task declares mountPath \"" ++ mountPath ++
        "\" but binding uses absolute subPath \"" ++ subPath ++
        "\" which may cause conflicts"
  | .wsBindingNoDecl name =>
      "workspace binding \"" ++ name ++
        "\" does not match any task workspace declaration"
  | .wsUnused name =>
      "pipeline workspace \"" ++ name ++ "\" is declared but never used"

/-- `needle` occurs verbatim inside `hay`. -/
def strContains (hay needle : String) : Prop :=
  needle.data <:+: hay.data

/-! ## Parameter validator (`parameter.go`) -/

/-- `getTaskParam`: look up a declared spec by name (first match, as the Go
loop returns on the first hit). -/
def getTaskParam (name : String) (taskParams : List ParamSpec) : Option ParamSpec :=
  taskParams.find? (fun p => p.name == name)

/-- `getPipelineTaskParam`: look up an assignment by name. -/
def getPipelineTaskParam (name : String) (pipelineTaskParams : List Param) : Option Param :=
  pipelineTaskParams.find? (fun p => p.name == name)

/-- The recurring normalization: Tekton treats an absent type as `"string"`. -/
def effectiveType (t : String) : String :=
  if t == "" then "string" else t

/-- `validatePipelineTaskParameters`: check assignments against declared
specs.  First loop: every assignment must name a declared spec and carry the
declared value type.  Second loop: every spec without a default must have a
matching assignment. -/
def validatePipelineTaskParameters (pipelineTaskParams : List Param)
    (taskParams : List ParamSpec) : List VError :=
  (pipelineTaskParams.flatMap fun pipelineTaskParam =>
    match getTaskParam pipelineTaskParam.name taskParams with
    | none => [.paramNotDefined pipelineTaskParam.name]
    | some taskParam =>
        let taskParamType := effectiveType taskParam.type_
        let pipelineTaskParamType := effectiveType pipelineTaskParam.value.type_
        if pipelineTaskParamType ≠ taskParamType then
          [.paramIncorrectType pipelineTaskParam.name pipelineTaskParamType taskParamType]
        else []) ++
  (taskParams.flatMap fun taskParam =>
    if taskParam.default_.isSome then []
    else
      match getPipelineTaskParam taskParam.name pipelineTaskParams with
      | some _ => []
      | none => [.paramRequired taskParam.name])

/-- `ValidateParameters` is a direct wrapper. -/
def ValidateParameters (params : List Param) (specs : List ParamSpec) : List VError :=
  validatePipelineTaskParameters params specs

theorem validatePipelineTaskParameters_eq (ps : List Param) (ts : List ParamSpec) :
    validatePipelineTaskParameters ps ts =
      (ps.flatMap fun p =>
        match getTaskParam p.name ts with
        | none => [.paramNotDefined p.name]
        | some tp =>
            if effectiveType p.value.type_ ≠ effectiveType tp.type_ then
              [.paramIncorrectType p.name (effectiveType p.value.type_)
                (effectiveType tp.type_)]
            else []) ++
      (ts.flatMap fun tp =>
        if tp.default_.isSome then []
        else
          match getPipelineTaskParam tp.name ps with
          | some _ => []
          | none => [.paramRequired tp.name]) := rfl

theorem paramRequired_not_mem_first_loop (ps : List Param) (ts : List ParamSpec)
    (pname : String) :
    VError.paramRequired pname ∉
      ps.flatMap (fun p =>
        match getTaskParam p.name ts with
        | none => [VError.paramNotDefined p.name]
        | some tp =>
            if effectiveType p.value.type_ ≠ effectiveType tp.type_ then
              [VError.paramIncorrectType p.name (effectiveType p.value.type_)
                (effectiveType tp.type_)]
            else []) := by
  intro h
  rcases List.mem_flatMap.1 h with ⟨p, _, hmem⟩
  cases hfind : getTaskParam p.name ts with
  | none => rw [hfind] at hmem; simp at hmem
  | some tp =>
      rw [hfind] at hmem
      by_cases hty : effectiveType p.value.type_ ≠ effectiveType tp.type_ <;>
        simp [hty] at hmem

theorem paramRequired_mem_iff (ps : List Param) (ts : List ParamSpec) (pname : String) :
    VError.paramRequired pname ∈ validatePipelineTaskParameters ps ts ↔
      ∃ spec, spec ∈ ts ∧ spec.name = pname ∧ spec.default_ = none ∧
        ∀ a ∈ ps, a.name ≠ pname := by
  rw [validatePipelineTaskParameters_eq, List.mem_append]
  constructor
  · rintro (h | h)
    · exact absurd h (paramRequired_not_mem_first_loop ps ts pname)
    · rcases List.mem_flatMap.1 h with ⟨tp, htp, hmem⟩
      cases hdef : tp.default_ with
      | some v => rw [hdef] at hmem; simp at hmem
      | none =>
          rw [hdef] at hmem
          cases hfind : getPipelineTaskParam tp.name ps with
          | some q => rw [hfind] at hmem; simp at hmem
          | none =>
              rw [hfind] at hmem
              simp at hmem
              have hname : tp.name = pname := hmem.symm
              refine ⟨tp, htp, hname, hdef, ?_⟩
              intro a ha
              have := List.find?_eq_none.1 hfind a ha
              simpa [hname] using this
  · rintro ⟨spec, hspec, hname, hdef, habs⟩
    right
    refine List.mem_flatMap.2 ⟨spec, hspec, ?_⟩
    have hfind : getPipelineTaskParam spec.name ps = none := by
      apply List.find?_eq_none.2
      intro a ha
      simpa [hname] using habs a ha
    rw [hdef, hfind]
    simp [hname]

theorem strContains_of_eq_three (a b c : String) :
    strContains (a ++ b ++ c) b := by
  show b.data <:+: (a ++ b ++ c).data
  have h : (a ++ b ++ c).data = a.data ++ b.data ++ c.data := by
    simp [String.data_append]
  rw [h]
  exact List.infix_append a.data b.data c.data

/-- C1: a "required" error for a parameter name appears in the parameter
validator's output iff some declared spec carries that name, has no default
value, and no supplied assignment carries the name; and the rendered error
message contains the parameter name verbatim. -/
theorem required_parameter_completeness (assignments : List Param)
    (specs : List ParamSpec) (pname : String) :
    (VError.paramRequired pname ∈ ValidateParameters assignments specs ↔
      ∃ spec, spec ∈ specs ∧ spec.name = pname ∧ spec.default_ = none ∧
        ∀ a ∈ assignments, a.name ≠ pname) ∧
    strContains (VError.render (.paramRequired pname)) pname := by
  constructor
  · exact paramRequired_mem_iff assignments specs pname
  · show strContains ("\"" ++ pname ++ "\" parameter is required") pname
    exact strContains_of_eq_three "\"" pname "\" parameter is required"

/-! ## Result reference validator -/

/-- The tail of the `\[(\d+|\*)\]` pattern: zero or more further digits and a
closing bracket. -/
def digitsClose : List Char → Bool
  | [] => false
  | c :: cs => if c == ']' then true else if c.isDigit then digitsClose cs else false

/-- After an opening `[`: either `*]`, or one or more digits and `]`. -/
def bracketBody : List Char → Bool
  | [] => false
  | c :: cs =>
      if c == '*' then cs.head? == some ']'
      else if c.isDigit then digitsClose cs else false

/-- The regular expression `\[(\d+|\*)\]` matches at the head of the text. -/
def matchBracketAt : List Char → Bool
  | [] => false
  | c :: cs => c == '[' && bracketBody cs

/-- The regular expression `\[(\d+|\*)\]` matches somewhere in the text. -/
def hasArrayIndex : List Char → Bool
  | [] => false
  | c :: cs => matchBracketAt (c :: cs) || hasArrayIndex cs

/-- `isArrayIndexUsage`: the usage text matches `\[(\d+|\*)\]` anywhere. -/
def isArrayIndexUsage (usage : String) : Bool :=
  hasArrayIndex usage.data

/-- The suffix of the text after the first occurrence of `pat`
(`strings.Index` + slicing), or `none` when `pat` does not occur. -/
def afterFirstOcc (pat : List Char) : List Char → Option (List Char)
  | [] => if pat.isEmpty then some [] else none
  | c :: cs =>
      if pat.isPrefixOf (c :: cs) then some (List.drop pat.length (c :: cs))
      else afterFirstOcc pat cs

/-- `strings.TrimRight`: drop trailing characters belonging to the cutset. -/
def trimRightCutset (cut : List Char) (l : List Char) : List Char :=
  (l.reverse.dropWhile (fun c => cut.contains c)).reverse

/-- `isObjectPropertyUsage`: take the part after the first `results.`, trim
trailing spaces and closing parentheses, and test whether it still contains a
dot (a property-access suffix). -/
def isObjectPropertyUsage (usage : String) : Bool :=
  match afterFirstOcc "results.".data usage.data with
  | none => false
  | some afterResults =>
      decide (0 < (trimRightCutset [' ', ')'] afterResults).count '.')

/-- `isResultTypeCompatible`: the type-compatible-usage rules, mirroring the
Go switch statement. -/
def isResultTypeCompatible (definedType expectedType actualUsage : String) : Bool :=
  if expectedType == "" then true
  else if definedType == expectedType then true
  else if definedType == "string" then expectedType == "string"
  else if definedType == "array" then
    if expectedType == "array" then true
    else if expectedType == "string" then isArrayIndexUsage actualUsage
    else false
  else if definedType == "object" then
    if expectedType == "object" then true
    else if expectedType == "string" then isObjectPropertyUsage actualUsage
    else false
  else expectedType == "string"

/-- The spec's wording of the array-indexing rule: the literal usage text
contains an index accessor of the form `[<digits>]` or `[*]`. -/
def SpecContainsIndexAccessor (u : String) : Prop :=
  ∃ pre ds post, u.data = pre ++ '[' :: (ds ++ ']' :: post) ∧
    (ds = ['*'] ∨ (ds ≠ [] ∧ ∀ c ∈ ds, c.isDigit))

/-- The spec's wording of the object-property rule: after the `results.`
prefix the literal usage text contains at least one further dot. -/
def SpecObjectPropertySuffix (u : String) : Prop :=
  ∃ pre post, u.data = pre ++ "results.".data ++ post ∧ '.' ∈ post

theorem digitsClose_of_decomp (ds rest : List Char) (h : ∀ c ∈ ds, c.isDigit) :
    digitsClose (ds ++ ']' :: rest) = true := by
  induction ds with
  | nil => simp [digitsClose]
  | cons d ds' ih =>
      rw [List.cons_append, digitsClose]
      by_cases hd : d = ']'
      · simp [hd]
      · have hne : (d == ']') = false := by simp [hd]
        rw [hne]
        simp only [Bool.false_eq_true, if_false]
        rw [if_pos (h d (by simp))]
        exact ih fun c hc => h c (List.mem_cons_of_mem d hc)

theorem digitsClose_iff (l : List Char) :
    digitsClose l = true ↔ ∃ ds rest, l = ds ++ ']' :: rest ∧ ∀ c ∈ ds, c.isDigit := by
  induction l with
  | nil => simp [digitsClose]
  | cons c cs ih =>
      constructor
      · intro h
        rw [digitsClose] at h
        by_cases hc : c = ']'
        · exact ⟨[], cs, by simp [hc], by simp⟩
        · have hc' : (c == ']') = false := by simp [hc]
          rw [hc', if_neg (by simp)] at h
          by_cases hd : c.isDigit
          · rw [if_pos hd] at h
            rcases ih.1 h with ⟨ds, rest, heq, hall⟩
            refine ⟨c :: ds, rest, by simp [heq], ?_⟩
            intro x hx
            rcases List.mem_cons.1 hx with h1 | h1
            · rw [h1]; exact hd
            · exact hall x h1
          · rw [if_neg hd] at h; exact absurd h (by simp)
      · rintro ⟨ds, rest, heq, hall⟩
        rw [heq]
        exact digitsClose_of_decomp ds rest hall

theorem bracketBody_iff (l : List Char) :
    bracketBody l = true ↔ ∃ ds rest, l = ds ++ ']' :: rest ∧
      (ds = ['*'] ∨ (ds ≠ [] ∧ ∀ c ∈ ds, c.isDigit)) := by
  cases l with
  | nil =>
      simp only [bracketBody, Bool.false_eq_true, false_iff]
      rintro ⟨ds, rest, heq, -⟩
      exact absurd heq (by simp)
  | cons c cs =>
      rw [bracketBody]
      by_cases hc : c = '*'
      · subst hc
        rw [if_pos (by simp)]
        constructor
        · intro h
          cases cs with
          | nil => simp at h
          | cons c2 cs2 =>
              have h2 : c2 = ']' := by
                have := of_decide_eq_true h
                simpa using this
              exact ⟨['*'], cs2, by simp [h2], Or.inl rfl⟩
        · rintro ⟨ds, rest, heq, hds | ⟨hne, hall⟩⟩
          · rw [hds] at heq
            simp at heq
            rw [heq]
            simp
          · cases ds with
            | nil => exact absurd rfl hne
            | cons d ds' =>
                simp at heq
                have : d = '*' := heq.1.symm
                rw [this] at hall
                have := hall '*' (by simp)
                simp [Char.isDigit] at this
      · have hne : (c == '*') = false := by simp [hc]
        rw [hne]
        simp only [Bool.false_eq_true, if_false]
        by_cases hd : c.isDigit
        · rw [if_pos hd]
          rw [digitsClose_iff]
          constructor
          · rintro ⟨ds, rest, heq, hall⟩
            refine ⟨c :: ds, rest, by simp [heq], Or.inr ⟨by simp, ?_⟩⟩
            intro x hx
            rcases List.mem_cons.1 hx with h1 | h1
            · rw [h1]; exact hd
            · exact hall x h1
          · rintro ⟨ds, rest, heq, hds | ⟨hne2, hall⟩⟩
            · rw [hds] at heq
              simp at heq
              exact absurd heq.1 hc
            · cases ds with
              | nil => exact absurd rfl hne2
              | cons d ds' =>
                  simp at heq
                  refine ⟨ds', rest, heq.2, ?_⟩
                  intro x hx
                  exact hall x (List.mem_cons_of_mem d hx)
        · rw [if_neg hd]
          simp only [Bool.false_eq_true, false_iff]
          rintro ⟨ds, rest, heq, hds | ⟨hne2, hall⟩⟩
          · rw [hds] at heq
            simp at heq
            exact hc heq.1
          · cases ds with
            | nil => exact absurd rfl hne2
            | cons d ds' =>
                simp at heq
                rw [heq.1] at hd
                exact hd (hall d (by simp))

theorem matchBracketAt_iff (l : List Char) :
    matchBracketAt l = true ↔ ∃ ds rest, l = '[' :: (ds ++ ']' :: rest) ∧
      (ds = ['*'] ∨ (ds ≠ [] ∧ ∀ c ∈ ds, c.isDigit)) := by
  cases l with
  | nil =>
      simp only [matchBracketAt, Bool.false_eq_true, false_iff]
      rintro ⟨ds, rest, heq, -⟩
      exact absurd heq (by simp)
  | cons c cs =>
      rw [matchBracketAt, Bool.and_eq_true, bracketBody_iff]
      constructor
      · rintro ⟨hc, ds, rest, heq, hform⟩
        exact ⟨ds, rest, by simp [heq, eq_of_beq hc], hform⟩
      · rintro ⟨ds, rest, heq, hform⟩
        simp at heq
        exact ⟨by simp [heq.1], ds, rest, heq.2, hform⟩

theorem hasArrayIndex_iff (l : List Char) :
    hasArrayIndex l = true ↔ ∃ pre suf, l = pre ++ suf ∧ matchBracketAt suf = true := by
  induction l with
  | nil =>
      simp only [hasArrayIndex, Bool.false_eq_true, false_iff]
      rintro ⟨pre, suf, heq, hm⟩
      have : suf = [] := by
        rcases List.append_eq_nil.1 heq.symm with ⟨-, h2⟩
        exact h2
      rw [this] at hm
      simp [matchBracketAt] at hm
  | cons c cs ih =>
      rw [hasArrayIndex, Bool.or_eq_true]
      constructor
      · rintro (h | h)
        · exact ⟨[], c :: cs, by simp, h⟩
        · rcases ih.1 h with ⟨pre, suf, heq, hm⟩
          exact ⟨c :: pre, suf, by simp [heq], hm⟩
      · rintro ⟨pre, suf, heq, hm⟩
        cases pre with
        | nil =>
            simp at heq
            left
            rw [heq]
            exact hm
        | cons p pre' =>
            simp at heq
            right
            exact ih.2 ⟨pre', suf, heq.2, hm⟩

theorem isArrayIndexUsage_iff_spec (u : String) :
    isArrayIndexUsage u = true ↔ SpecContainsIndexAccessor u := by
  rw [isArrayIndexUsage, hasArrayIndex_iff]
  constructor
  · rintro ⟨pre, suf, heq, hm⟩
    rcases (matchBracketAt_iff suf).1 hm with ⟨ds, rest, hsuf, hform⟩
    exact ⟨pre, ds, rest, by rw [heq, hsuf], hform⟩
  · rintro ⟨pre, ds, post, heq, hform⟩
    refine ⟨pre, '[' :: (ds ++ ']' :: post), heq, ?_⟩
    exact (matchBracketAt_iff _).2 ⟨ds, post, rfl, hform⟩

theorem isResultTypeCompatible_array_string (u : String) :
    isResultTypeCompatible "array" "string" u = isArrayIndexUsage u := rfl

/-- C3: with a defined type of `array` and an expected type of `string`,
`isResultTypeCompatible` holds iff the literal usage text contains an index
accessor of the form `[<digits>]` or `[*]`; in particular it accepts an
indexed usage and rejects the whole-array usage. -/
theorem array_indexing_rule (u : String) :
    (isResultTypeCompatible "array" "string" u = true ↔ SpecContainsIndexAccessor u) ∧
    isResultTypeCompatible "array" "string" "$(tasks.t.results.r[0])" = true ∧
    isResultTypeCompatible "array" "string" "$(tasks.t.results.r)" = false := by
  refine ⟨?_, by decide, by decide⟩
  rw [isResultTypeCompatible_array_string]
  exact isArrayIndexUsage_iff_spec u

theorem afterFirstOcc_some_decomp (pat l suf : List Char)
    (h : afterFirstOcc pat l = some suf) : ∃ pre, l = pre ++ pat ++ suf := by
  induction l with
  | nil =>
      rw [afterFirstOcc] at h
      by_cases hp : pat.isEmpty
      · have h1 : pat = [] := by simpa using hp
        rw [if_pos hp] at h
        have h2 : suf = [] := (Option.some.inj h).symm
        exact ⟨[], by simp [h1, h2]⟩
      · rw [if_neg hp] at h
        exact absurd h (by simp)
  | cons c cs ih =>
      rw [afterFirstOcc] at h
      by_cases hp : pat.isPrefixOf (c :: cs)
      · rw [if_pos hp] at h
        rcases List.isPrefixOf_iff_prefix.1 hp with ⟨rest, hrest⟩
        have hdrop : List.drop pat.length (c :: cs) = rest := by
          rw [← hrest]
          exact List.drop_left pat rest
        have hsuf : suf = rest := by
          rw [hdrop] at h
          exact (Option.some.inj h).symm
        exact ⟨[], by simp [← hrest, hsuf]⟩
      · rw [if_neg hp] at h
        rcases ih h with ⟨pre, hpre⟩
        exact ⟨c :: pre, by simp [hpre]⟩

theorem afterFirstOcc_none (pat l : List Char) (h : afterFirstOcc pat l = none) :
    ∀ pre post, l ≠ pre ++ pat ++ post := by
  induction l with
  | nil =>
      rw [afterFirstOcc] at h
      by_cases hp : pat.isEmpty
      · rw [if_pos hp] at h
        exact absurd h (by simp)
      · intro pre post heq
        have h1 : pat = [] := by
          have := heq.symm
          rcases List.append_eq_nil.1 this with ⟨h2, -⟩
          rcases List.append_eq_nil.1 h2 with ⟨-, h3⟩
          exact h3
        rw [h1] at hp
        simp at hp
  | cons c cs ih =>
      rw [afterFirstOcc] at h
      by_cases hp : pat.isPrefixOf (c :: cs)
      · rw [if_pos hp] at h
        exact absurd h (by simp)
      · rw [if_neg hp] at h
        intro pre post heq
        cases pre with
        | nil =>
            simp at heq
            apply hp
            exact List.isPrefixOf_iff_prefix.2 ⟨post, heq.symm⟩
        | cons c2 pre' =>
            simp at heq
            exact ih h pre' post (by simpa using heq.2)

theorem afterFirstOcc_mem_suffix (pat l suf : List Char)
    (h : afterFirstOcc pat l = some suf) :
    ∀ pre post, l = pre ++ pat ++ post → ∀ a : Char, a ∈ post → a ∈ suf := by
  induction l with
  | nil =>
      intro pre post heq a ha
      have := heq.symm
      rcases List.append_eq_nil.1 this with ⟨-, h3⟩
      rw [h3] at ha
      simp at ha
  | cons c cs ih =>
      rw [afterFirstOcc] at h
      by_cases hp : pat.isPrefixOf (c :: cs)
      · rw [if_pos hp] at h
        have hsuf : suf = List.drop pat.length (c :: cs) := (Option.some.inj h).symm
        intro pre post heq a ha
        have hpost : post = List.drop pre.length suf := by
          rw [hsuf, heq]
          rw [List.drop_drop]
          have hassoc : pre ++ pat ++ post = (pre ++ pat) ++ post := by
            simp
          rw [hassoc]
          have hlen : pre.length + pat.length = (pre ++ pat).length := by
            simp
          rw [Nat.add_comm pat.length pre.length, hlen, List.drop_left]
        rw [hpost] at ha
        exact List.mem_of_mem_drop ha
      · rw [if_neg hp] at h
        intro pre post heq a ha
        cases pre with
        | nil =>
            simp at heq
            exact absurd (List.isPrefixOf_iff_prefix.2 ⟨post, heq.symm⟩) hp
        | cons c2 pre' =>
            simp at heq
            exact ih h pre' post (by simpa using heq.2) a ha

theorem mem_dropWhile_of_mem (p : Char → Bool) (a : Char) (hpa : p a = false) :
    ∀ l : List Char, a ∈ l → a ∈ l.dropWhile p := by
  intro l
  induction l with
  | nil => simp
  | cons c cs ih =>
      intro h
      rw [List.dropWhile_cons]
      by_cases hc : p c
      · rw [if_pos hc]
        rcases List.mem_cons.1 h with h1 | h1
        · rw [h1] at hpa
          rw [hpa] at hc
          exact absurd hc (by simp)
        · exact ih h1
      · rw [if_neg hc]
        exact h

theorem mem_trimRightCutset (cut : List Char) (a : Char) (ha : cut.contains a = false)
    (l : List Char) : a ∈ trimRightCutset cut l ↔ a ∈ l := by
  rw [trimRightCutset, List.mem_reverse]
  constructor
  · intro h
    have hsub := List.dropWhile_sublist (l := l.reverse) (fun c => cut.contains c)
    exact List.mem_reverse.1 (hsub.subset h)
  · intro h
    exact mem_dropWhile_of_mem _ a ha _ (List.mem_reverse.2 h)

theorem isObjectPropertyUsage_iff_spec (u : String) :
    isObjectPropertyUsage u = true ↔ SpecObjectPropertySuffix u := by
  unfold isObjectPropertyUsage
  cases hocc : afterFirstOcc "results.".data u.data with
  | none =>
      simp only [Bool.false_eq_true, false_iff]
      rintro ⟨pre, post, heq, -⟩
      exact afterFirstOcc_none _ _ hocc pre post heq
  | some suf =>
      simp only [decide_eq_true_eq]
      constructor
      · intro h
        have hdot : '.' ∈ trimRightCutset [' ', ')'] suf := List.count_pos_iff.1 h
        have hdot2 : '.' ∈ suf := (mem_trimRightCutset _ _ (by decide) _).1 hdot
        rcases afterFirstOcc_some_decomp _ _ _ hocc with ⟨pre, hpre⟩
        exact ⟨pre, suf, hpre, hdot2⟩
      · rintro ⟨pre, post, heq, hdot⟩
        have hdot2 : '.' ∈ suf := afterFirstOcc_mem_suffix _ _ _ hocc pre post heq '.' hdot
        exact List.count_pos_iff.2 ((mem_trimRightCutset _ _ (by decide) _).2 hdot2)

theorem isResultTypeCompatible_object_string (u : String) :
    isResultTypeCompatible "object" "string" u = isObjectPropertyUsage u := rfl

/-- C4: with a defined type of `object` and an expected type of `string`,
`isResultTypeCompatible` holds iff the literal usage text contains, after the
`results.` prefix, at least one further dot (a property-access suffix); in
particular it accepts a property access and rejects the whole-object usage. -/
theorem object_property_rule (u : String) :
    (isResultTypeCompatible "object" "string" u = true ↔ SpecObjectPropertySuffix u) ∧
    isResultTypeCompatible "object" "string" "$(tasks.t.results.r.field)" = true ∧
    isResultTypeCompatible "object" "string" "$(tasks.t.results.r)" = false := by
  refine ⟨?_, by decide, by decide⟩
  rw [isResultTypeCompatible_object_string]
  exact isObjectPropertyUsage_iff_spec u

theorem strContains_parts (a b c hay : String)
    (h : hay.data = a.data ++ b.data ++ c.data) : strContains hay b := by
  show b.data <:+: hay.data
  rw [h]
  exact List.infix_append a.data b.data c.data

/-- Go map lookup into the produced-results map (`allTaskResults[name]`). -/
def lookupTaskResults (m : List (String × List TaskResult)) (task : String) :
    Option (List TaskResult) :=
  (m.find? (fun e => e.1 == task)).map (fun e => e.2)

/-- `refKey := fmt.Sprintf("%s.%s", resultRef.PipelineTask, resultRef.Result)`. -/
def refKeyOf (ref : ResultRef) : String :=
  ref.pipelineTask ++ "." ++ ref.result

/-- Go map lookup into the usage-context map.  Contexts are accumulated by map
assignment, so the most recent insertion for a key wins. -/
def lookupContext (ctxs : List (String × ResultUsageContext)) (key : String) :
    Option ResultUsageContext :=
  (ctxs.reverse.find? (fun e => e.1 == key)).map (fun e => e.2)

/-- `validateResultTypeUsage`: when a usage context exists for the reference,
check type-compatible usage; otherwise no check is performed. -/
def validateResultTypeUsage (resultRef : ResultRef) (result : TaskResult)
    (usageContexts : List (String × ResultUsageContext)) : List VError :=
  let definedType := effectiveType result.type_
  match lookupContext usageContexts (refKeyOf resultRef) with
  | some c =>
      if isResultTypeCompatible definedType c.expectedType c.actualUsage then []
      else
        [.resultTypeMismatch resultRef.result resultRef.pipelineTask definedType
          c.expectedType c.location c.actualUsage]
  | none => []

/-- The body of the `ValidateResultsWithContext` loop for one reference:
existence of the producer task, existence of the named result (first match, as
the Go loop breaks on the first hit), then type usage. -/
def validateResultRef (allTaskResults : List (String × List TaskResult))
    (usageContexts : List (String × ResultUsageContext)) (resultRef : ResultRef) :
    List VError :=
  match lookupTaskResults allTaskResults resultRef.pipelineTask with
  | none => [.resultNonExistentTask resultRef.result resultRef.pipelineTask]
  | some results =>
      match results.find? (fun r => r.name == resultRef.result) with
      | none => [.nonExistentResult resultRef.result resultRef.pipelineTask]
      | some result => validateResultTypeUsage resultRef result usageContexts

/-- `ValidateResultsWithContext`: run the two-phase check over every
reference, accumulating errors. -/
def ValidateResultsWithContext (resultRefs : List ResultRef)
    (allTaskResults : List (String × List TaskResult))
    (usageContexts : List (String × ResultUsageContext)) : List VError :=
  resultRefs.flatMap (validateResultRef allTaskResults usageContexts)

/-- `ValidateResults` passes an empty usage-context map. -/
def ValidateResults (resultRefs : List ResultRef)
    (allTaskResults : List (String × List TaskResult)) : List VError :=
  ValidateResultsWithContext resultRefs allTaskResults []

/-- C5: per reference, a missing producer task yields exactly the one
"non-existent task" error (containing the producer name verbatim) and a
missing result on an existing producer yields exactly the one "non-existent
result" error (containing both names verbatim); in both cases the outcome is
the same for every usage-context map, i.e. no type-usage check happens. -/
theorem dangling_reference_errors (allTaskResults : List (String × List TaskResult))
    (usageContexts : List (String × ResultUsageContext)) (resultRefs : List ResultRef)
    (ref : ResultRef) :
    (ValidateResultsWithContext (ref :: resultRefs) allTaskResults usageContexts =
      validateResultRef allTaskResults usageContexts ref ++
        ValidateResultsWithContext resultRefs allTaskResults usageContexts) ∧
    (lookupTaskResults allTaskResults ref.pipelineTask = none →
      (∀ ctxs2, validateResultRef allTaskResults ctxs2 ref =
        [.resultNonExistentTask ref.result ref.pipelineTask]) ∧
      strContains (VError.render (.resultNonExistentTask ref.result ref.pipelineTask))
        ref.pipelineTask) ∧
    (∀ results, lookupTaskResults allTaskResults ref.pipelineTask = some results →
      results.find? (fun r => r.name == ref.result) = none →
      (∀ ctxs2, validateResultRef allTaskResults ctxs2 ref =
        [.nonExistentResult ref.result ref.pipelineTask]) ∧
      strContains (VError.render (.nonExistentResult ref.result ref.pipelineTask))
        ref.result ∧
      strContains (VError.render (.nonExistentResult ref.result ref.pipelineTask))
        ref.pipelineTask) := by
  refine ⟨List.flatMap_cons _ _ _, ?_, ?_⟩
  · intro hnone
    constructor
    · intro ctxs2
      rw [validateResultRef, hnone]
    · apply strContains_parts (ref.result ++ " result from non-existent ") ref.pipelineTask
        " PipelineTask"
      simp [VError.render, String.data_append]
  · intro results hsome hfind
    refine ⟨?_, ?_, ?_⟩
    · intro ctxs2
      rw [validateResultRef, hsome]
      simp only [hfind]
    · apply strContains_parts "non-existent " ref.result
        (" result from " ++ ref.pipelineTask ++ " PipelineTask")
      simp [VError.render, String.data_append]
    · apply strContains_parts ("non-existent " ++ ref.result ++ " result from ")
        ref.pipelineTask " PipelineTask"
      simp [VError.render, String.data_append]

theorem dangling_reference_errors_witness :
    validateResultRef [("t", [⟨"r", "string"⟩])] [] ⟨"ghost", "x"⟩ =
      [.resultNonExistentTask "x" "ghost"] ∧
    validateResultRef [("t", [⟨"r", "string"⟩])] [] ⟨"t", "y"⟩ =
      [.nonExistentResult "y" "t"] := by
  constructor
  · exact ((dangling_reference_errors [("t", [⟨"r", "string"⟩])] [] [] ⟨"ghost", "x"⟩).2.1
      (by decide)).1 []
  · exact ((dangling_reference_errors [("t", [⟨"r", "string"⟩])] [] [] ⟨"t", "y"⟩).2.2
      [⟨"r", "string"⟩] (by decide) (by decide)).1 []

/-! ## Workspace validator (`workspace.go`) -/

/-- `validateWorkspaceRequirements`: flag a declared mount path combined with
an absolute sub path. -/
def validateWorkspaceRequirements (decl : WorkspaceDeclaration)
    (binding : WorkspacePipelineTaskBinding) : List VError :=
  if decl.mountPath ≠ "" ∧ binding.subPath ≠ "" then
    if binding.subPath.startsWith "/" then
      [.wsPathConflict decl.name decl.mountPath binding.subPath]
    else []
  else []

/-- The declaration-side loop body of `validateTaskWorkspaces` for one
task-level workspace declaration: require a binding unless optional, check the
referenced pipeline workspace exists when the binding names one, then check
path requirements. -/
def wsDeclErrors (pipelineTask : PipelineTask)
    (pipelineWorkspaces : List PipelineWorkspaceDeclaration)
    (decl : WorkspaceDeclaration) : List VError :=
  match pipelineTask.workspaces.find? (fun b => b.name == decl.name) with
  | none => if decl.optional then [] else [.wsRequired decl.name]
  | some binding =>
      (if binding.workspace ≠ "" ∧
          (pipelineWorkspaces.find? (fun w => w.name == binding.workspace)).isNone then
        [.wsNonExistent decl.name binding.workspace]
      else []) ++ validateWorkspaceRequirements decl binding

/-- The binding-side loop body of `validateTaskWorkspaces`: every binding must
match a task workspace declaration. -/
def wsBindingErrors (taskSpec : TaskSpec)
    (binding : WorkspacePipelineTaskBinding) : List VError :=
  if (taskSpec.workspaces.find? (fun d => d.name == binding.name)).isSome then []
  else [.wsBindingNoDecl binding.name]

/-- `validateTaskWorkspaces`: both directions of the declaration/binding
check for one task. -/
def validateTaskWorkspaces (pipelineTask : PipelineTask) (taskSpec : TaskSpec)
    (pipelineWorkspaces : List PipelineWorkspaceDeclaration) : List VError :=
  taskSpec.workspaces.flatMap (wsDeclErrors pipelineTask pipelineWorkspaces) ++
    pipelineTask.workspaces.flatMap (wsBindingErrors taskSpec)

/-- `append(pipelineSpec.Tasks, pipelineSpec.Finally...)`: ordinary tasks
followed by terminal tasks. -/
def allPTasks (p : PipelineSpec) : List PipelineTask :=
  p.tasks ++ p.finallyTasks

/-- The `usedWorkspaces` set of `validateUnusedPipelineWorkspaces`: every
nonempty pipeline-workspace name referenced by a binding of any task. -/
def usedWorkspaces (p : PipelineSpec) : List String :=
  (allPTasks p).flatMap fun t =>
    t.workspaces.filterMap fun b =>
      if b.workspace ≠ "" then some b.workspace else none

/-- Collapse duplicate names, keeping first occurrences. -/
def dedupByName : List String → List PipelineWorkspaceDeclaration →
    List PipelineWorkspaceDeclaration
  | _, [] => []
  | seen, w :: ws =>
      if seen.contains w.name then dedupByName seen ws
      else w :: dedupByName (w.name :: seen) ws

/-- The Go map from pipeline-workspace name to declaration built at the top of
`ValidateWorkspaces`, as a list of declarations with duplicate names collapsed
(iteration modelled in first-occurrence order; Go map order is unspecified and
no theorem depends on it). -/
def pipelineWorkspacesMap (p : PipelineSpec) : List PipelineWorkspaceDeclaration :=
  dedupByName [] p.workspaces

/-- `validateUnusedPipelineWorkspaces`: one error per declared pipeline
workspace that no binding references. -/
def validateUnusedPipelineWorkspaces (p : PipelineSpec) : List VError :=
  (pipelineWorkspacesMap p).filterMap fun w =>
    if (usedWorkspaces p).contains w.name then none else some (.wsUnused w.name)

/-- The entries `ValidateWorkspaces` appends to its multierror: one wrapped
entry per task with errors, then the flattened unused-workspace errors. -/
inductive WsError where
  | task (taskName : String) (errs : List VError)
  | unused (e : VError)
deriving DecidableEq

/-- Go map lookup into the resolved task-spec map (`allTaskSpecs[name]`). -/
def lookupTaskSpec (m : List (String × TaskSpec)) (task : String) : Option TaskSpec :=
  (m.find? (fun e => e.1 == task)).map (fun e => e.2)

/-- `ValidateWorkspaces`: per task (skipping tasks with no resolved spec) run
`validateTaskWorkspaces`, then report unused pipeline workspaces. -/
def ValidateWorkspaces (p : PipelineSpec)
    (allTaskSpecs : List (String × TaskSpec)) : List WsError :=
  ((allPTasks p).filterMap fun pipelineTask =>
    match lookupTaskSpec allTaskSpecs pipelineTask.name with
    | none => none
    | some taskSpec =>
        let errs := validateTaskWorkspaces pipelineTask taskSpec (pipelineWorkspacesMap p)
        if errs.isEmpty then none else some (.task pipelineTask.name errs)) ++
    (validateUnusedPipelineWorkspaces p).map .unused

/-- Which ws-error constructors name which task-level workspace. -/
def VError.wsName : VError → Option String
  | .wsRequired n => some n
  | .wsNonExistent n _ => some n
  | .wsPathConflict n _ _ => some n
  | .wsBindingNoDecl n => some n
  | .wsUnused n => some n
  | _ => none

theorem wsDeclErrors_wsName (pt : PipelineTask)
    (pws : List PipelineWorkspaceDeclaration) (d : WorkspaceDeclaration) :
    ∀ e ∈ wsDeclErrors pt pws d, e.wsName = some d.name := by
  intro e he
  rw [wsDeclErrors] at he
  cases hfind : pt.workspaces.find? (fun b => b.name == d.name) with
  | none =>
      rw [hfind] at he
      by_cases hopt : d.optional
      · rw [if_pos hopt] at he
        simp at he
      · rw [if_neg hopt] at he
        simp at he
        rw [he]
        rfl
  | some binding =>
      rw [hfind] at he
      rcases List.mem_append.1 he with h1 | h1
      · by_cases hc : binding.workspace ≠ "" ∧
            (pws.find? (fun w => w.name == binding.workspace)).isNone
        · rw [if_pos hc] at h1
          simp at h1
          rw [h1]
          rfl
        · rw [if_neg hc] at h1
          simp at h1
      · rw [validateWorkspaceRequirements] at h1
        by_cases hc : d.mountPath ≠ "" ∧ binding.subPath ≠ ""
        · rw [if_pos hc] at h1
          by_cases habs : binding.subPath.startsWith "/"
          · rw [if_pos habs] at h1
            simp at h1
            rw [h1]
            rfl
          · rw [if_neg habs] at h1
            simp at h1
        · rw [if_neg hc] at h1
          simp at h1

theorem wsBindingErrors_shape (ts : TaskSpec) (b : WorkspacePipelineTaskBinding) :
    ∀ e ∈ wsBindingErrors ts b, e = .wsBindingNoDecl b.name := by
  intro e he
  rw [wsBindingErrors] at he
  by_cases hc : (ts.workspaces.find? (fun d => d.name == b.name)).isSome
  · rw [if_pos hc] at he
    simp at he
  · rw [if_neg hc] at he
    simp at he
    exact he

theorem wsDeclErrors_unbound (pt : PipelineTask)
    (pws : List PipelineWorkspaceDeclaration) (decl : WorkspaceDeclaration)
    (hnb : ∀ b ∈ pt.workspaces, b.name ≠ decl.name) :
    wsDeclErrors pt pws decl = if decl.optional then [] else [.wsRequired decl.name] := by
  rw [wsDeclErrors]
  have hfind : pt.workspaces.find? (fun b => b.name == decl.name) = none :=
    List.find?_eq_none.2 fun b hb => by simpa using hnb b hb
  rw [hfind]

theorem count_wsRequired_wsDeclErrors_zero (pt : PipelineTask)
    (pws : List PipelineWorkspaceDeclaration) (d : WorkspaceDeclaration) (n : String)
    (h : d.name ≠ n) : (wsDeclErrors pt pws d).count (.wsRequired n) = 0 := by
  rw [List.count_eq_zero]
  intro hmem
  have := wsDeclErrors_wsName pt pws d _ hmem
  rw [show (VError.wsRequired n).wsName = some n from rfl] at this
  exact h (Option.some.inj this).symm

theorem count_wsRequired_flatMapDecls (pt : PipelineTask)
    (pws : List PipelineWorkspaceDeclaration) (ws : List WorkspaceDeclaration)
    (decl : WorkspaceDeclaration) (hmem : decl ∈ ws)
    (hnodup : (ws.map (fun d => d.name)).Nodup)
    (hnb : ∀ b ∈ pt.workspaces, b.name ≠ decl.name) (hopt : decl.optional = false) :
    (ws.flatMap (wsDeclErrors pt pws)).count (.wsRequired decl.name) = 1 := by
  induction ws with
  | nil => cases hmem
  | cons w ws' ih =>
      rw [List.map_cons, List.nodup_cons] at hnodup
      rw [List.flatMap_cons, List.count_append]
      rcases List.mem_cons.1 hmem with h1 | h1
      · subst h1
        rw [wsDeclErrors_unbound pt pws decl hnb, if_neg (by simp [hopt])]
        have hrest : (ws'.flatMap (wsDeclErrors pt pws)).count (.wsRequired decl.name) = 0 := by
          rw [List.count_eq_zero]
          intro hmem2
          rcases List.mem_flatMap.1 hmem2 with ⟨d, hd, hmem3⟩
          have hname : (VError.wsRequired decl.name).wsName = some d.name :=
            wsDeclErrors_wsName pt pws d _ hmem3
          have hdd : decl.name = d.name := Option.some.inj hname
          exact hnodup.1 (by rw [hdd]; exact List.mem_map_of_mem _ hd)
        rw [hrest]
        simp
      · have hwname : w.name ≠ decl.name := by
          intro hcon
          exact hnodup.1 (by rw [hcon]; exact List.mem_map_of_mem _ h1)
        rw [count_wsRequired_wsDeclErrors_zero pt pws w decl.name hwname]
        rw [ih h1 hnodup.2]

theorem count_wsRequired_bindings_zero (ts : TaskSpec) (bs : List WorkspacePipelineTaskBinding)
    (n : String) : (bs.flatMap (wsBindingErrors ts)).count (.wsRequired n) = 0 := by
  rw [List.count_eq_zero]
  intro hmem
  rcases List.mem_flatMap.1 hmem with ⟨b, hb, hmem2⟩
  have := wsBindingErrors_shape ts b _ hmem2
  simp at this

/-- C8: a task-level workspace declaration with no binding of its name
produces no workspace error at all when optional, and exactly one
"required workspace is not provided" error (rendered with the workspace name
in quotes) when not optional. -/
theorem workspace_binding_roundtrip (pipelineTask : PipelineTask) (taskSpec : TaskSpec)
    (pipelineWorkspaces : List PipelineWorkspaceDeclaration) (decl : WorkspaceDeclaration)
    (hmem : decl ∈ taskSpec.workspaces)
    (hnodup : (taskSpec.workspaces.map (fun d => d.name)).Nodup)
    (hnb : ∀ b ∈ pipelineTask.workspaces, b.name ≠ decl.name) :
    (decl.optional = true →
      (validateTaskWorkspaces pipelineTask taskSpec pipelineWorkspaces).countP
        (fun e => e.wsName == some decl.name) = 0) ∧
    (decl.optional = false →
      (validateTaskWorkspaces pipelineTask taskSpec pipelineWorkspaces).count
        (.wsRequired decl.name) = 1 ∧
      VError.render (.wsRequired decl.name) =
        "required workspace \"" ++ decl.name ++ "\" is not provided") := by
  constructor
  · intro hopt
    rw [List.countP_eq_zero]
    intro e he
    rw [validateTaskWorkspaces] at he
    rcases List.mem_append.1 he with h1 | h1
    · rcases List.mem_flatMap.1 h1 with ⟨d, hd, hmem2⟩
      by_cases hdn : d.name = decl.name
      · have : d = decl := by
          have hinj := List.inj_on_of_nodup_map hnodup
          exact hinj hd hmem hdn
        rw [this, wsDeclErrors_unbound pipelineTask pipelineWorkspaces decl hnb,
          if_pos hopt] at hmem2
        cases hmem2
      · have := wsDeclErrors_wsName pipelineTask pipelineWorkspaces d _ hmem2
        rw [this]
        simp [hdn]
    · rcases List.mem_flatMap.1 h1 with ⟨b, hb, hmem2⟩
      have := wsBindingErrors_shape taskSpec b _ hmem2
      rw [this]
      simp [VError.wsName, hnb b hb]
  · intro hopt
    refine ⟨?_, rfl⟩
    rw [validateTaskWorkspaces, List.count_append,
      count_wsRequired_flatMapDecls pipelineTask pipelineWorkspaces taskSpec.workspaces
        decl hmem hnodup hnb hopt,
      count_wsRequired_bindings_zero taskSpec pipelineTask.workspaces decl.name]

theorem workspace_binding_roundtrip_witness :
    (validateTaskWorkspaces ⟨"t", [], [], []⟩ ⟨[], [], [⟨"cache", true, ""⟩]⟩ []).countP
      (fun e => e.wsName == some "cache") = 0 ∧
    (validateTaskWorkspaces ⟨"t", [], [], []⟩ ⟨[], [], [⟨"cache", false, ""⟩]⟩ []).count
      (.wsRequired "cache") = 1 := by
  constructor
  · exact (workspace_binding_roundtrip ⟨"t", [], [], []⟩ ⟨[], [], [⟨"cache", true, ""⟩]⟩ []
      ⟨"cache", true, ""⟩ (by simp) (by simp) (by simp)).1 rfl
  · exact ((workspace_binding_roundtrip ⟨"t", [], [], []⟩ ⟨[], [], [⟨"cache", false, ""⟩]⟩ []
      ⟨"cache", false, ""⟩ (by simp) (by simp) (by simp)).2 rfl).1

theorem mem_usedWorkspaces (p : PipelineSpec) (wname : String) :
    wname ∈ usedWorkspaces p ↔
      wname ≠ "" ∧ ∃ t ∈ allPTasks p, ∃ b ∈ t.workspaces, b.workspace = wname := by
  rw [usedWorkspaces]
  simp only [List.mem_flatMap, List.mem_filterMap]
  constructor
  · rintro ⟨t, ht, b, hb, hif⟩
    by_cases hw : b.workspace ≠ ""
    · rw [if_pos hw] at hif
      have heq := Option.some.inj hif
      exact ⟨by rw [← heq]; exact hw, t, ht, b, hb, heq⟩
    · rw [if_neg hw] at hif
      cases hif
  · rintro ⟨hne, t, ht, b, hb, heq⟩
    refine ⟨t, ht, b, hb, ?_⟩
    rw [if_pos (by rw [heq]; exact hne), heq]

theorem dedupByName_spec (l : List PipelineWorkspaceDeclaration) (seen : List String) :
    ((dedupByName seen l).map (fun w => w.name)).Nodup ∧
    ∀ n, n ∈ (dedupByName seen l).map (fun w => w.name) ↔
      (n ∈ l.map (fun w => w.name) ∧ n ∉ seen) := by
  induction l generalizing seen with
  | nil => simp [dedupByName]
  | cons w ws ih =>
      rw [dedupByName]
      by_cases hc : seen.contains w.name
      · rw [if_pos hc]
        have hwseen : w.name ∈ seen := by simpa using hc
        refine ⟨(ih seen).1, fun n => ?_⟩
        rw [(ih seen).2 n]
        constructor
        · rintro ⟨h1, h2⟩
          exact ⟨by simp [h1], h2⟩
        · rintro ⟨h1, h2⟩
          rcases (by simpa using h1 : n = w.name ∨ n ∈ ws.map (fun w => w.name)) with h3 | h3
          · rw [h3] at h2
            exact absurd hwseen h2
          · exact ⟨h3, h2⟩
      · rw [if_neg hc]
        have hwseen : w.name ∉ seen := by simpa using hc
        rcases ih (w.name :: seen) with ⟨ihnodup, ihmem⟩
        constructor
        · rw [List.map_cons, List.nodup_cons]
          refine ⟨fun hmem => ?_, ihnodup⟩
          have := (ihmem w.name).1 hmem
          simp at this
        · intro n
          rw [List.map_cons, List.mem_cons, ihmem n]
          constructor
          · rintro (h1 | ⟨h1, h2⟩)
            · exact ⟨by simp [h1], by rw [h1]; exact hwseen⟩
            · exact ⟨by simp [h1], fun hcon => h2 (by simp [hcon])⟩
          · rintro ⟨h1, h2⟩
            rcases (by simpa using h1 : n = w.name ∨ n ∈ ws.map (fun w => w.name)) with h3 | h3
            · exact Or.inl h3
            · by_cases h4 : n = w.name
              · exact Or.inl h4
              · exact Or.inr ⟨h3, by simp [h4, h2]⟩

theorem count_unused_filterMap_one (l : List PipelineWorkspaceDeclaration)
    (used : List String) (wname : String)
    (hnodup : (l.map (fun w => w.name)).Nodup)
    (hmem : wname ∈ l.map (fun w => w.name))
    (hnotused : used.contains wname = false) :
    (l.filterMap (fun w => if used.contains w.name then none
      else some (VError.wsUnused w.name))).count (VError.wsUnused wname) = 1 := by
  induction l with
  | nil => simp at hmem
  | cons w ws ih =>
      rw [List.map_cons, List.nodup_cons] at hnodup
      rcases (by simpa using hmem : wname = w.name ∨ wname ∈ ws.map (fun w => w.name))
        with h1 | h1
      · rw [List.filterMap_cons]
        rw [← h1, hnotused]
        simp only [Bool.false_eq_true, if_false]
        rw [List.count_cons]
        have hzero : (ws.filterMap (fun w => if used.contains w.name then none
            else some (VError.wsUnused w.name))).count (VError.wsUnused wname) = 0 := by
          rw [List.count_eq_zero]
          intro hmem2
          rcases List.mem_filterMap.1 hmem2 with ⟨w2, hw2, hif⟩
          by_cases hc : used.contains w2.name
          · rw [if_pos hc] at hif
            cases hif
          · rw [if_neg hc] at hif
            have hw2n : w2.name = wname := VError.wsUnused.inj (Option.some.inj hif)
            exact hnodup.1 (by rw [← h1, ← hw2n]; exact List.mem_map_of_mem _ hw2)
        rw [hzero]
        simp
      · have hwname : w.name ≠ wname := by
          intro hcon
          exact hnodup.1 (by rw [hcon]; exact h1)
        rw [List.filterMap_cons]
        by_cases hc : used.contains w.name
        · rw [if_pos hc]
          exact ih hnodup.2 h1
        · rw [if_neg hc]
          rw [List.count_cons, ih hnodup.2 h1]
          simp [hwname]

theorem count_unused_zero_of_used (p : PipelineSpec) (wname : String)
    (hused : wname ∈ usedWorkspaces p) :
    (validateUnusedPipelineWorkspaces p).count (VError.wsUnused wname) = 0 := by
  rw [validateUnusedPipelineWorkspaces, List.count_eq_zero]
  intro hmem
  rcases List.mem_filterMap.1 hmem with ⟨w, hw, hif⟩
  by_cases hc : (usedWorkspaces p).contains w.name
  · rw [if_pos hc] at hif
    cases hif
  · rw [if_neg hc] at hif
    have hname : w.name = wname := VError.wsUnused.inj (Option.some.inj hif)
    rw [hname] at hc
    exact hc (by simpa using hused)

/-- C9: a declared pipeline workspace is in the used set iff some task binding
references it by name; if nothing references it, the unused-workspace check
produces exactly one "declared but never used" error for it, and if something
does, it produces none. -/
theorem unused_pipeline_workspace (p : PipelineSpec) (wname : String)
    (hdecl : wname ∈ p.workspaces.map (fun w => w.name)) (hne : wname ≠ "") :
    (wname ∈ usedWorkspaces p ↔
      ∃ t ∈ allPTasks p, ∃ b ∈ t.workspaces, b.workspace = wname) ∧
    (wname ∉ usedWorkspaces p →
      (validateUnusedPipelineWorkspaces p).count (VError.wsUnused wname) = 1) ∧
    (wname ∈ usedWorkspaces p →
      (validateUnusedPipelineWorkspaces p).count (VError.wsUnused wname) = 0) := by
  refine ⟨?_, ?_, count_unused_zero_of_used p wname⟩
  · rw [mem_usedWorkspaces]
    constructor
    · rintro ⟨-, h⟩
      exact h
    · intro h
      exact ⟨hne, h⟩
  · intro hnotused
    rw [validateUnusedPipelineWorkspaces]
    rcases dedupByName_spec p.workspaces [] with ⟨hnodup, hmem⟩
    exact count_unused_filterMap_one (pipelineWorkspacesMap p) (usedWorkspaces p) wname
      hnodup ((hmem wname).2 ⟨hdecl, by simp⟩) (by simpa using hnotused)

theorem unused_pipeline_workspace_witness :
    (validateUnusedPipelineWorkspaces
      ⟨[], [⟨"t", [], [], [⟨"ws", "source", ""⟩]⟩], [], [⟨"source"⟩, ⟨"cache"⟩], []⟩).count
      (VError.wsUnused "cache") = 1 ∧
    (validateUnusedPipelineWorkspaces
      ⟨[], [⟨"t", [], [], [⟨"ws", "source", ""⟩]⟩], [], [⟨"source"⟩, ⟨"cache"⟩], []⟩).count
      (VError.wsUnused "source") = 0 := by
  constructor
  · exact (unused_pipeline_workspace
      ⟨[], [⟨"t", [], [], [⟨"ws", "source", ""⟩]⟩], [], [⟨"source"⟩, ⟨"cache"⟩], []⟩
      "cache" (by simp) (by simp)).2.1 (by decide)
  · exact (unused_pipeline_workspace
      ⟨[], [⟨"t", [], [], [⟨"ws", "source", ""⟩]⟩], [], [⟨"source"⟩, ⟨"cache"⟩], []⟩
      "source" (by simp) (by simp)).2.2 (by decide)

theorem wsRequired_mem_validateTaskWorkspaces (pt : PipelineTask) (ts : TaskSpec)
    (pws : List PipelineWorkspaceDeclaration) (n : String)
    (h : VError.wsRequired n ∈ validateTaskWorkspaces pt ts pws) :
    ∃ d ∈ ts.workspaces, d.name = n ∧
      pt.workspaces.find? (fun b => b.name == d.name) = none := by
  rw [validateTaskWorkspaces] at h
  rcases List.mem_append.1 h with h1 | h1
  · rcases List.mem_flatMap.1 h1 with ⟨d, hd, hmem⟩
    rw [wsDeclErrors] at hmem
    cases hfind : pt.workspaces.find? (fun b => b.name == d.name) with
    | none =>
        rw [hfind] at hmem
        by_cases hopt : d.optional
        · rw [if_pos hopt] at hmem
          cases hmem
        · rw [if_neg hopt] at hmem
          simp at hmem
          exact ⟨d, hd, hmem.symm, hfind⟩
    | some binding =>
        rw [hfind] at hmem
        rcases List.mem_append.1 hmem with h2 | h2
        · by_cases hc : binding.workspace ≠ "" ∧
              (pws.find? (fun w => w.name == binding.workspace)).isNone
          · rw [if_pos hc] at h2
            simp at h2
          · rw [if_neg hc] at h2
            cases h2
        · rw [validateWorkspaceRequirements] at h2
          by_cases hc : d.mountPath ≠ "" ∧ binding.subPath ≠ ""
          · rw [if_pos hc] at h2
            by_cases habs : binding.subPath.startsWith "/"
            · rw [if_pos habs] at h2
              simp at h2
            · rw [if_neg habs] at h2
              cases h2
          · rw [if_neg hc] at h2
            cases h2
  · rcases List.mem_flatMap.1 h1 with ⟨b, hb, hmem⟩
    have := wsBindingErrors_shape ts b _ hmem
    cases this

theorem wsNonExistent_empty_not_mem (pt : PipelineTask) (ts : TaskSpec)
    (pws : List PipelineWorkspaceDeclaration) (d : String) :
    VError.wsNonExistent d "" ∉ validateTaskWorkspaces pt ts pws := by
  intro h
  rw [validateTaskWorkspaces] at h
  rcases List.mem_append.1 h with h1 | h1
  · rcases List.mem_flatMap.1 h1 with ⟨decl, hd, hmem⟩
    rw [wsDeclErrors] at hmem
    cases hfind : pt.workspaces.find? (fun b => b.name == decl.name) with
    | none =>
        rw [hfind] at hmem
        by_cases hopt : decl.optional
        · rw [if_pos hopt] at hmem
          cases hmem
        · rw [if_neg hopt] at hmem
          simp at hmem
    | some binding =>
        rw [hfind] at hmem
        rcases List.mem_append.1 hmem with h2 | h2
        · by_cases hc : binding.workspace ≠ "" ∧
              (pws.find? (fun w => w.name == binding.workspace)).isNone
          · rw [if_pos hc] at h2
            simp at h2
            exact hc.1 h2.2.symm
          · rw [if_neg hc] at h2
            cases h2
        · rw [validateWorkspaceRequirements] at h2
          by_cases hc : decl.mountPath ≠ "" ∧ binding.subPath ≠ ""
          · rw [if_pos hc] at h2
            by_cases habs : binding.subPath.startsWith "/"
            · rw [if_pos habs] at h2
              simp at h2
            · rw [if_neg habs] at h2
              cases h2
          · rw [if_neg hc] at h2
            cases h2
  · rcases List.mem_flatMap.1 h1 with ⟨b, hb, hmem⟩
    have := wsBindingErrors_shape ts b _ hmem
    cases this

/-- C10: a binding whose pipeline-workspace name field is empty still
satisfies the required-workspace check for the declaration it names, is never
reported as referencing a non-existent pipeline workspace, and marks no
pipeline-level workspace as used. -/
theorem empty_binding_behaviour (pt : PipelineTask) (ts : TaskSpec)
    (pws : List PipelineWorkspaceDeclaration) (p : PipelineSpec)
    (decl : WorkspaceDeclaration) (hdecl : decl ∈ ts.workspaces)
    (hb : ∃ b ∈ pt.workspaces, b.name = decl.name ∧ b.workspace = "") :
    VError.wsRequired decl.name ∉ validateTaskWorkspaces pt ts pws ∧
    (∀ d, VError.wsNonExistent d "" ∉ validateTaskWorkspaces pt ts pws) ∧
    "" ∉ usedWorkspaces p ∧
    (∀ wname, wname ∈ usedWorkspaces p ↔
      wname ≠ "" ∧ ∃ t ∈ allPTasks p, ∃ b ∈ t.workspaces, b.workspace = wname) := by
  refine ⟨?_, fun d => wsNonExistent_empty_not_mem pt ts pws d, ?_,
    fun wname => mem_usedWorkspaces p wname⟩
  · intro h
    rcases wsRequired_mem_validateTaskWorkspaces pt ts pws decl.name h with
      ⟨d, hd, hname, hfind⟩
    rcases hb with ⟨b, hbmem, hbname, -⟩
    have := List.find?_eq_none.1 hfind b hbmem
    simp [hbname, hname] at this
  · intro h
    exact ((mem_usedWorkspaces p "").1 h).1 rfl

theorem empty_binding_behaviour_witness :
    VError.wsRequired "cache" ∉
      validateTaskWorkspaces ⟨"t", [], [], [⟨"cache", "", ""⟩]⟩
        ⟨[], [], [⟨"cache", false, ""⟩]⟩ [] ∧
    "" ∉ usedWorkspaces ⟨[], [⟨"t", [], [], [⟨"cache", "", ""⟩]⟩], [], [⟨"pw"⟩], []⟩ := by
  constructor
  · exact (empty_binding_behaviour ⟨"t", [], [], [⟨"cache", "", ""⟩]⟩
      ⟨[], [], [⟨"cache", false, ""⟩]⟩ []
      ⟨[], [⟨"t", [], [], [⟨"cache", "", ""⟩]⟩], [], [⟨"pw"⟩], []⟩
      ⟨"cache", false, ""⟩ (by simp) ⟨⟨"cache", "", ""⟩, by simp, rfl, rfl⟩).1
  · exact (empty_binding_behaviour ⟨"t", [], [], [⟨"cache", "", ""⟩]⟩
      ⟨[], [], [⟨"cache", false, ""⟩]⟩ []
      ⟨[], [⟨"t", [], [], [⟨"cache", "", ""⟩]⟩], [], [⟨"pw"⟩], []⟩
      ⟨"cache", false, ""⟩ (by simp) ⟨⟨"cache", "", ""⟩, by simp, rfl, rfl⟩).2.2.1

/-! ## Pipeline orchestrator (`pipeline.go`) -/

/-- The characters `([^).\[\s]+)` excludes in the result-reference pattern:
`)`, `.`, `[` and Go regexp whitespace (space, tab, newline, form feed,
carriage return). -/
def isResultNameStop (c : Char) : Bool :=
  c == ')' || c == '.' || c == '[' || c == ' ' || c == '\t' || c == '\n' ||
    c == '\x0c' || c == '\r'

/-- Match `\$\(tasks\.([^.]+)\.results\.([^).\[\s]+)` at the head of the
text; on success return the reference and the text after the match. -/
def tryResultRefAt (l : List Char) : Option (ResultRef × List Char) :=
  if "$(tasks.".data.isPrefixOf l then
    let l1 := List.drop 8 l
    let tn := l1.takeWhile (fun c => c != '.')
    if tn.isEmpty then none
    else
      match List.drop tn.length l1 with
      | '.' :: l3 =>
          if "results.".data.isPrefixOf l3 then
            let l4 := List.drop 8 l3
            let rn := l4.takeWhile (fun c => !(isResultNameStop c))
            if rn.isEmpty then none
            else some (⟨String.mk tn, String.mk rn⟩, List.drop rn.length l4)
          else none
      | _ => none
  else none

/-- The scanning loop of `extractResultReferencesFromValue`: non-overlapping
matches, resuming after each match (fuel bounds the scan steps; each step
advances by at least one character). -/
def extractResultRefsGo : Nat → List Char → List ResultRef
  | 0, _ => []
  | _ + 1, [] => []
  | fuel + 1, c :: rest =>
      match tryResultRefAt (c :: rest) with
      | some (ref, remaining) => ref :: extractResultRefsGo fuel remaining
      | none => extractResultRefsGo fuel rest

/-- `extractResultReferencesFromValue`: all result references found in a
parameter value by the pattern above. -/
def extractResultReferencesFromValue (value : String) : List ResultRef :=
  extractResultRefsGo value.data.length value.data

/-- Match `\$\(params\.([^)]*)\)` at the head of the text. -/
def tryParamRefAt (l : List Char) : Option (String × List Char) :=
  if "$(params.".data.isPrefixOf l then
    let l1 := List.drop 9 l
    let body := l1.takeWhile (fun c => c != ')')
    match List.drop body.length l1 with
    | ')' :: l2 => some (String.mk body, l2)
    | _ => none
  else none

/-- The scanning loop of `extractParameterReferences`. -/
def extractParamRefsGo : Nat → List Char → List String
  | 0, _ => []
  | _ + 1, [] => []
  | fuel + 1, c :: rest =>
      match tryParamRefAt (c :: rest) with
      | some (name, remaining) => name :: extractParamRefsGo fuel remaining
      | none => extractParamRefsGo fuel rest

/-- Keep first occurrences (the Go code deduplicates through a map whose
iteration order is unspecified; the model keeps first-occurrence order, which
no theorem depends on). -/
def dedupStrings : List String → List String → List String
  | _, [] => []
  | seen, s :: ss =>
      if seen.contains s then dedupStrings seen ss
      else s :: dedupStrings (s :: seen) ss

/-- `extractParameterReferences`: every distinct `$(params.<name>)` reference
in the raw document text, trimmed of surrounding whitespace. -/
def extractParameterReferences (yamlContent : String) : List String :=
  dedupStrings []
    ((extractParamRefsGo yamlContent.data.length yamlContent.data).map
      (fun s => s.trim))

/-- `ValidateParameterReferences`: report references to parameters the
pipeline spec does not define; an empty reference body is reported specially
rather than ignored. -/
def ValidateParameterReferences (pipelineParams : List ParamSpec)
    (rawYAML : String) : List VError :=
  (extractParameterReferences rawYAML).flatMap fun paramRef =>
    if paramRef == "" then [.paramRefEmpty]
    else if pipelineParams.any (fun p => p.name == paramRef) then []
    else [.paramRefUndefined paramRef]

/-- Modelled from the spec: the Tekton library call `v1.PipelineTaskResultRefs`
the orchestrator uses to collect a task's result references is not part of this
repository; per the spec the references are gathered from the task's
assignments' value expressions, scanned for the reference pattern, which is
the pattern `extractResultReferencesFromValue` scans for. -/
def ptResultRefs (t : PipelineTask) : List ResultRef :=
  t.params.flatMap fun pa => extractResultReferencesFromValue pa.value.stringVal

/-- Modelled from the spec: the matrix-aware per-task parameter check of the
three-argument `ValidatePipeline` called by the command layer and by the
pipeline tests is not among the sources; the spec requires the Parameter
Validator to run after synthesizing pass-through assignments for
matrix-supplied parameters so the required-parameter rule treats them as
present.  A pass-through assignment carries the matrix parameter's name and
value. -/
def synthesizePassThroughAssignments (matrix direct : List Param) : List Param :=
  direct ++ matrix.map fun mp => ⟨mp.name, mp.value⟩

/-- The parameter errors the orchestrator computes for one resolved task. -/
def taskParamErrors (t : PipelineTask) (s : TaskSpec) : List VError :=
  validatePipelineTaskParameters
    (synthesizePassThroughAssignments t.matrix t.params) s.params

/-- The top-level entries of the orchestrator's aggregate multierror, one
constructor per `multierror.Append` call site in
`ValidatePipelineWithYAMLAndParams` (structural errors arrive flattened). -/
inductive TopError where
  | paramRefs (errs : List VError)
  | structural (e : String)
  | resolution (task : String) (msg : String)
  | taskParams (task : String) (errs : List VError)
  | workspace (errs : List WsError)
  | taskResults (task : String) (errs : List VError)
  | pipelineResults (errs : List VError)
deriving DecidableEq

/-- The textual parameter-reference scanning stage (only when raw document
text is supplied). -/
def yamlStage (pipelineParams : List ParamSpec) (rawYAML : Option String) :
    List TopError :=
  match rawYAML with
  | some y =>
      let errs := ValidateParameterReferences pipelineParams y
      if errs.isEmpty then [] else [.paramRefs errs]
  | none => []

/-- The per-task resolution-and-parameter loop: a resolution failure records
one wrapped error and skips the rest of the loop body for that task
(`continue`); on success the parameter check may record one wrapped entry. -/
def resolutionStage (resolve : PipelineTask → Except String TaskSpec)
    (p : PipelineSpec) : List TopError :=
  (allPTasks p).filterMap fun t =>
    match resolve t with
    | .error msg => some (.resolution t.name msg)
    | .ok s =>
        let errs := taskParamErrors t s
        if errs.isEmpty then none else some (.taskParams t.name errs)

/-- `allTaskResults`: the produced-results map, holding only successfully
resolved tasks. -/
def producedResults (resolve : PipelineTask → Except String TaskSpec)
    (p : PipelineSpec) : List (String × List TaskResult) :=
  (allPTasks p).filterMap fun t =>
    match resolve t with
    | .ok s => some (t.name, s.results)
    | .error _ => none

/-- `allTaskSpecs`: the resolved-contract map, holding only successfully
resolved tasks. -/
def allTaskSpecsOf (resolve : PipelineTask → Except String TaskSpec)
    (p : PipelineSpec) : List (String × TaskSpec) :=
  (allPTasks p).filterMap fun t =>
    match resolve t with
    | .ok s => some (t.name, s)
    | .error _ => none

/-- `allTaskResultRefs`: recorded for every task, before resolution is
attempted. -/
def allRefsOf (p : PipelineSpec) : List (String × List ResultRef) :=
  (allPTasks p).map fun t => (t.name, ptResultRefs t)

/-- The usage contexts one resolved task contributes: for each parameter value
containing result references, the expected type of the consuming parameter
(first matching spec), keyed by `producer.result`. -/
def taskTypeContexts (t : PipelineTask) (s : TaskSpec) :
    List (String × ResultUsageContext) :=
  t.params.flatMap fun param =>
    if param.value.stringVal != "" then
      (extractResultReferencesFromValue param.value.stringVal).filterMap fun ref =>
        match getTaskParam param.name s.params with
        | some paramSpec =>
            some (refKeyOf ref,
              ⟨"PipelineTask " ++ t.name ++ " parameter " ++ param.name,
                effectiveType paramSpec.type_, param.value.stringVal⟩)
        | none => none
    else []

/-- `parameterTypeContexts`, accumulated over the loop (failed resolutions
contribute nothing because the loop body is skipped). -/
def typeContextsOf (resolve : PipelineTask → Except String TaskSpec)
    (p : PipelineSpec) : List (String × ResultUsageContext) :=
  (allPTasks p).flatMap fun t =>
    match resolve t with
    | .ok s => taskTypeContexts t s
    | .error _ => []

/-- The per-task result-reference check over `allTaskResultRefs`. -/
def resultStage (resolve : PipelineTask → Except String TaskSpec)
    (p : PipelineSpec) : List TopError :=
  (allRefsOf p).filterMap fun e =>
    let errs := ValidateResultsWithContext e.2 (producedResults resolve p)
      (typeContextsOf resolve p)
    if errs.isEmpty then none else some (.taskResults e.1 errs)

/-- Modelled from the spec: pipeline-level result expressions are turned into
references by external library calls not in this repository; the spec says the
declared value expressions are scanned the same way, so the model reuses the
same extraction. -/
def pipelineResultRefs (pr : PipelineResult) : List ResultRef :=
  extractResultReferencesFromValue pr.value.stringVal

/-- The pipeline-level result check: each pipeline result is consumed as a
whole string. -/
def pipelineResultStage (resolve : PipelineTask → Except String TaskSpec)
    (p : PipelineSpec) : List TopError :=
  p.results.filterMap fun pr =>
    let refs := pipelineResultRefs pr
    let ctxs := refs.map fun ref =>
      (refKeyOf ref,
        (⟨"Pipeline result " ++ pr.name, "string", pr.value.stringVal⟩ :
          ResultUsageContext))
    let errs := ValidateResultsWithContext refs (producedResults resolve p) ctxs
    if errs.isEmpty then none else some (.pipelineResults errs)

/-- The workspace check over the whole task set. -/
def workspaceStage (resolve : PipelineTask → Except String TaskSpec)
    (p : PipelineSpec) : List TopError :=
  let ws := ValidateWorkspaces p (allTaskSpecsOf resolve p)
  if ws.isEmpty then [] else [.workspace ws]

/-- `ValidatePipelineWithYAMLAndParams`: the orchestrator.  The structural
delegate (`p.Validate`) and the task-spec resolver are external collaborators
passed as arguments; every stage appends to one shared collection and every
stage runs. -/
def ValidatePipelineWithYAMLAndParams (structuralErrs : List String)
    (resolve : PipelineTask → Except String TaskSpec) (p : PipelineSpec)
    (rawYAML : Option String) : List TopError :=
  yamlStage p.params rawYAML ++
    structuralErrs.map .structural ++
    resolutionStage resolve p ++
    workspaceStage resolve p ++
    resultStage resolve p ++
    pipelineResultStage resolve p

theorem mem_VPWYP_shape (structuralErrs : List String)
    (resolve : PipelineTask → Except String TaskSpec) (p : PipelineSpec)
    (rawYAML : Option String) (e : TopError)
    (h : e ∈ ValidatePipelineWithYAMLAndParams structuralErrs resolve p rawYAML) :
    e ∈ yamlStage p.params rawYAML ∨ e ∈ structuralErrs.map TopError.structural ∨
    e ∈ resolutionStage resolve p ∨ e ∈ workspaceStage resolve p ∨
    e ∈ resultStage resolve p ∨ e ∈ pipelineResultStage resolve p := by
  rw [ValidatePipelineWithYAMLAndParams] at h
  simpa [List.mem_append, or_assoc] using h

theorem yamlStage_shape (pp : List ParamSpec) (ry : Option String) (e : TopError)
    (h : e ∈ yamlStage pp ry) : ∃ errs, e = TopError.paramRefs errs := by
  rw [yamlStage.eq_def] at h
  cases ry with
  | none => cases h
  | some y =>
      by_cases hc : (ValidateParameterReferences pp y).isEmpty
      · simp [hc] at h
      · simp [hc] at h
        exact ⟨_, h⟩

theorem workspaceStage_shape (resolve : PipelineTask → Except String TaskSpec)
    (p : PipelineSpec) (e : TopError) (h : e ∈ workspaceStage resolve p) :
    e = TopError.workspace (ValidateWorkspaces p (allTaskSpecsOf resolve p)) := by
  rw [workspaceStage] at h
  by_cases hc : (ValidateWorkspaces p (allTaskSpecsOf resolve p)).isEmpty
  · simp [hc] at h
  · simp [hc] at h
    exact h

theorem resultStage_shape (resolve : PipelineTask → Except String TaskSpec)
    (p : PipelineSpec) (e : TopError) (h : e ∈ resultStage resolve p) :
    ∃ n errs, e = TopError.taskResults n errs := by
  rw [resultStage] at h
  rcases List.mem_filterMap.1 h with ⟨x, hx, hmatch⟩
  by_cases hc : (ValidateResultsWithContext x.2 (producedResults resolve p)
      (typeContextsOf resolve p)).isEmpty
  · simp [hc] at hmatch
  · simp [hc] at hmatch
    exact ⟨_, _, hmatch.symm⟩

theorem pipelineResultStage_shape (resolve : PipelineTask → Except String TaskSpec)
    (p : PipelineSpec) (e : TopError) (h : e ∈ pipelineResultStage resolve p) :
    ∃ errs, e = TopError.pipelineResults errs := by
  rw [pipelineResultStage] at h
  rcases List.mem_filterMap.1 h with ⟨pr, hpr, hmatch⟩
  by_cases hc : (ValidateResultsWithContext (pipelineResultRefs pr)
      (producedResults resolve p) ((pipelineResultRefs pr).map fun ref =>
        (refKeyOf ref,
          (⟨"Pipeline result " ++ pr.name, "string", pr.value.stringVal⟩ :
            ResultUsageContext)))).isEmpty
  · simp [hc] at hmatch
  · simp [hc] at hmatch
    exact ⟨_, hmatch.symm⟩

theorem resolutionStage_taskParams_elim (resolve : PipelineTask → Except String TaskSpec)
    (p : PipelineSpec) (n : String) (errs : List VError)
    (h : TopError.taskParams n errs ∈ resolutionStage resolve p) :
    ∃ u ∈ allPTasks p, ∃ s, resolve u = Except.ok s ∧ u.name = n ∧
      errs = taskParamErrors u s := by
  rw [resolutionStage] at h
  rcases List.mem_filterMap.1 h with ⟨u, hu, hmatch⟩
  cases hres : resolve u with
  | error msg =>
      rw [hres] at hmatch
      simp at hmatch
  | ok s =>
      rw [hres] at hmatch
      by_cases hc : (taskParamErrors u s).isEmpty
      · simp [hc] at hmatch
      · simp [hc] at hmatch
        exact ⟨u, hu, s, hres, hmatch.1, hmatch.2.symm⟩

theorem taskParams_mem_elim (structuralErrs : List String)
    (resolve : PipelineTask → Except String TaskSpec) (p : PipelineSpec)
    (rawYAML : Option String) (n : String) (errs : List VError)
    (h : TopError.taskParams n errs ∈
      ValidatePipelineWithYAMLAndParams structuralErrs resolve p rawYAML) :
    ∃ u ∈ allPTasks p, ∃ s, resolve u = Except.ok s ∧ u.name = n ∧
      errs = taskParamErrors u s := by
  rcases mem_VPWYP_shape structuralErrs resolve p rawYAML _ h with
    h1 | h1 | h1 | h1 | h1 | h1
  · rcases yamlStage_shape _ _ _ h1 with ⟨errs2, heq⟩
    simp at heq
  · rcases List.mem_map.1 h1 with ⟨x, -, heq⟩
    simp at heq
  · exact resolutionStage_taskParams_elim resolve p n errs h1
  · have := workspaceStage_shape resolve p _ h1
    simp at this
  · rcases resultStage_shape resolve p _ h1 with ⟨n2, errs2, heq⟩
    simp at heq
  · rcases pipelineResultStage_shape resolve p _ h1 with ⟨errs2, heq⟩
    simp at heq

theorem workspace_mem_elim (structuralErrs : List String)
    (resolve : PipelineTask → Except String TaskSpec) (p : PipelineSpec)
    (rawYAML : Option String) (wsErrs : List WsError)
    (h : TopError.workspace wsErrs ∈
      ValidatePipelineWithYAMLAndParams structuralErrs resolve p rawYAML) :
    wsErrs = ValidateWorkspaces p (allTaskSpecsOf resolve p) := by
  rcases mem_VPWYP_shape structuralErrs resolve p rawYAML _ h with
    h1 | h1 | h1 | h1 | h1 | h1
  · rcases yamlStage_shape _ _ _ h1 with ⟨errs2, heq⟩
    simp at heq
  · rcases List.mem_map.1 h1 with ⟨x, -, heq⟩
    simp at heq
  · rw [resolutionStage] at h1
    rcases List.mem_filterMap.1 h1 with ⟨u, -, hmatch⟩
    cases hres : resolve u with
    | error msg => rw [hres] at hmatch; simp at hmatch
    | ok s =>
        rw [hres] at hmatch
        by_cases hc : (taskParamErrors u s).isEmpty <;> simp [hc] at hmatch
  · exact TopError.workspace.inj (workspaceStage_shape resolve p _ h1)
  · rcases resultStage_shape resolve p _ h1 with ⟨n2, errs2, heq⟩
    simp at heq
  · rcases pipelineResultStage_shape resolve p _ h1 with ⟨errs2, heq⟩
    simp at heq

theorem resolution_mem_intro (structuralErrs : List String)
    (resolve : PipelineTask → Except String TaskSpec) (p : PipelineSpec)
    (rawYAML : Option String) (t : PipelineTask) (msg : String)
    (hmem : t ∈ allPTasks p) (hfail : resolve t = Except.error msg) :
    TopError.resolution t.name msg ∈
      ValidatePipelineWithYAMLAndParams structuralErrs resolve p rawYAML := by
  have h1 : TopError.resolution t.name msg ∈ resolutionStage resolve p := by
    rw [resolutionStage]
    exact List.mem_filterMap.2 ⟨t, hmem, by rw [hfail]⟩
  rw [ValidatePipelineWithYAMLAndParams]
  simp [List.mem_append, h1]

theorem taskParams_mem_intro (structuralErrs : List String)
    (resolve : PipelineTask → Except String TaskSpec) (p : PipelineSpec)
    (rawYAML : Option String) (u : PipelineTask) (s : TaskSpec)
    (hu : u ∈ allPTasks p) (hres : resolve u = Except.ok s)
    (hne : taskParamErrors u s ≠ []) :
    TopError.taskParams u.name (taskParamErrors u s) ∈
      ValidatePipelineWithYAMLAndParams structuralErrs resolve p rawYAML := by
  have h1 : TopError.taskParams u.name (taskParamErrors u s) ∈
      resolutionStage resolve p := by
    rw [resolutionStage]
    refine List.mem_filterMap.2 ⟨u, hu, ?_⟩
    rw [hres]
    simp only [List.isEmpty_iff]
    rw [if_neg hne]
  rw [ValidatePipelineWithYAMLAndParams]
  simp [List.mem_append, h1]

theorem taskResults_mem_intro (structuralErrs : List String)
    (resolve : PipelineTask → Except String TaskSpec) (p : PipelineSpec)
    (rawYAML : Option String) (t : PipelineTask) (hmem : t ∈ allPTasks p)
    (hne : ValidateResultsWithContext (ptResultRefs t) (producedResults resolve p)
      (typeContextsOf resolve p) ≠ []) :
    TopError.taskResults t.name (ValidateResultsWithContext (ptResultRefs t)
        (producedResults resolve p) (typeContextsOf resolve p)) ∈
      ValidatePipelineWithYAMLAndParams structuralErrs resolve p rawYAML := by
  have h1 : TopError.taskResults t.name (ValidateResultsWithContext (ptResultRefs t)
      (producedResults resolve p) (typeContextsOf resolve p)) ∈
      resultStage resolve p := by
    rw [resultStage]
    refine List.mem_filterMap.2 ⟨(t.name, ptResultRefs t), ?_, ?_⟩
    · rw [allRefsOf]
      exact List.mem_map_of_mem _ hmem
    · simp only [List.isEmpty_iff]
      rw [if_neg hne]
  rw [ValidatePipelineWithYAMLAndParams]
  simp [List.mem_append, h1]

theorem lookup_allTaskSpecsOf (resolve : PipelineTask → Except String TaskSpec)
    (p : PipelineSpec) (n : String) (s : TaskSpec)
    (h : lookupTaskSpec (allTaskSpecsOf resolve p) n = some s) :
    ∃ v ∈ allPTasks p, v.name = n ∧ resolve v = Except.ok s := by
  rw [lookupTaskSpec] at h
  cases hfind : (allTaskSpecsOf resolve p).find? (fun e => e.1 == n) with
  | none => rw [hfind] at h; cases h
  | some e =>
      rw [hfind] at h
      have he2 : e.2 = s := Option.some.inj h
      have hmem := List.mem_of_find?_eq_some hfind
      have hname := List.find?_some hfind
      simp only [] at hname
      rw [allTaskSpecsOf] at hmem
      rcases List.mem_filterMap.1 hmem with ⟨v, hv, hmatch⟩
      cases hres : resolve v with
      | error m => rw [hres] at hmatch; cases hmatch
      | ok s2 =>
          rw [hres] at hmatch
          have heq : (v.name, s2) = e := Option.some.inj hmatch
          refine ⟨v, hv, ?_, ?_⟩
          · rw [show v.name = e.1 from congrArg Prod.fst heq]
            exact eq_of_beq (by simpa using hname)
          · rw [hres]
            rw [show s2 = e.2 from (congrArg Prod.snd heq), he2]

theorem wsTask_mem_elim (p : PipelineSpec) (specs : List (String × TaskSpec))
    (n : String) (errs : List VError)
    (h : WsError.task n errs ∈ ValidateWorkspaces p specs) :
    ∃ ts, lookupTaskSpec specs n = some ts := by
  rw [ValidateWorkspaces] at h
  rcases List.mem_append.1 h with h1 | h1
  · rcases List.mem_filterMap.1 h1 with ⟨pt, hpt, hmatch⟩
    cases hlook : lookupTaskSpec specs pt.name with
    | none => rw [hlook] at hmatch; simp at hmatch
    | some ts =>
        rw [hlook] at hmatch
        by_cases hc : (validateTaskWorkspaces pt ts (pipelineWorkspacesMap p)).isEmpty
        · simp [hc] at hmatch
        · simp [hc] at hmatch
          exact ⟨ts, by rw [← hmatch.1]; exact hlook⟩
  · rcases List.mem_map.1 h1 with ⟨x, -, heq⟩
    simp at heq

/-- C2 (spec-modelled matrix synthesis): a declared parameter supplied through
the task's matrix is treated as present — the per-task parameter check over
the synthesized pass-through assignments emits no "required" error for it, and
no task-parameter entry of the whole pipeline validation contains one. -/
theorem matrix_params_present (t : PipelineTask) (s : TaskSpec) (pname : String)
    (hmx : ∃ mp ∈ t.matrix, mp.name = pname) :
    VError.paramRequired pname ∉ taskParamErrors t s ∧
    ∀ (structuralErrs : List String)
      (resolve : PipelineTask → Except String TaskSpec) (p : PipelineSpec)
      (rawYAML : Option String),
      t ∈ allPTasks p → resolve t = Except.ok s →
      ((allPTasks p).map (fun u => u.name)).Nodup →
      ∀ errs, TopError.taskParams t.name errs ∈
          ValidatePipelineWithYAMLAndParams structuralErrs resolve p rawYAML →
        VError.paramRequired pname ∉ errs := by
  have hmain : VError.paramRequired pname ∉ taskParamErrors t s := by
    intro h
    rw [taskParamErrors] at h
    rcases (paramRequired_mem_iff _ _ _).1 h with ⟨spec, -, -, -, habs⟩
    rcases hmx with ⟨mp, hmp, hname⟩
    refine habs ⟨mp.name, mp.value⟩ ?_ hname
    rw [synthesizePassThroughAssignments]
    exact List.mem_append_right _ (List.mem_map_of_mem _ hmp)
  refine ⟨hmain, ?_⟩
  intro structuralErrs resolve p rawYAML hmem hres hnodup errs hin
  rcases taskParams_mem_elim structuralErrs resolve p rawYAML t.name errs hin with
    ⟨u, hu, s2, hres2, hname2, herrs⟩
  have hut : u = t := List.inj_on_of_nodup_map hnodup hu hmem hname2
  subst hut
  rw [hres] at hres2
  have hs : s2 = s := (Except.ok.inj hres2).symm
  rw [herrs, hs]
  exact hmain

theorem matrix_params_present_witness :
    VError.paramRequired "PLATFORM" ∉ taskParamErrors
      ⟨"run", [], [⟨"PLATFORM", ⟨"string", "$(params.build-platforms)"⟩⟩], []⟩
      ⟨[⟨"PLATFORM", "array", none⟩], [], []⟩ :=
  (matrix_params_present
    ⟨"run", [], [⟨"PLATFORM", ⟨"string", "$(params.build-platforms)"⟩⟩], []⟩
    ⟨[⟨"PLATFORM", "array", none⟩], [], []⟩ "PLATFORM"
    ⟨⟨"PLATFORM", ⟨"string", "$(params.build-platforms)"⟩⟩, by simp, rfl⟩).1

/-- A task whose spec resolution fails, referencing a result of a task that
does not exist. -/
def brokenTask : PipelineTask :=
  ⟨"broken", [⟨"p", ⟨"string", "$(tasks.ghost.results.x)"⟩⟩], [], []⟩

/-- A one-task pipeline around `brokenTask`. -/
def brokenPipeline : PipelineSpec := ⟨[], [brokenTask], [], [], []⟩

/-- A resolver that fails for every task. -/
def failResolver : PipelineTask → Except String TaskSpec := fun _ => .error "boom"

/-- C6 counterexample: with resolution failing for `broken`, the aggregate
report still contains a result-reference error attributed to `broken` — the
result checks for the resolution-failed task are not skipped. -/
theorem resolution_failure_counterexample :
    ValidatePipelineWithYAMLAndParams [] failResolver brokenPipeline none =
      [.resolution "broken" "boom",
       .taskResults "broken" [.resultNonExistentTask "x" "ghost"]] ∧
    TopError.taskResults "broken" [.resultNonExistentTask "x" "ghost"] ∈
      ValidatePipelineWithYAMLAndParams [] failResolver brokenPipeline none := by
  exact ⟨by decide, by decide⟩

/-- C6 (amended): a resolution failure for one task records a resolution
error naming it, suppresses its parameter check and its workspace check, and
does not abort the rest: every other resolved task's parameter errors still
appear, and the failed task's own result references are still checked for
existence. -/
theorem resolution_failure_isolated (structuralErrs : List String)
    (resolve : PipelineTask → Except String TaskSpec) (p : PipelineSpec)
    (rawYAML : Option String) (t : PipelineTask) (msg : String)
    (hmem : t ∈ allPTasks p)
    (hnodup : ((allPTasks p).map (fun u => u.name)).Nodup)
    (hfail : resolve t = Except.error msg) :
    TopError.resolution t.name msg ∈
      ValidatePipelineWithYAMLAndParams structuralErrs resolve p rawYAML ∧
    (∀ errs, TopError.taskParams t.name errs ∉
      ValidatePipelineWithYAMLAndParams structuralErrs resolve p rawYAML) ∧
    (∀ wsErrs, TopError.workspace wsErrs ∈
        ValidatePipelineWithYAMLAndParams structuralErrs resolve p rawYAML →
      ∀ errs, WsError.task t.name errs ∉ wsErrs) ∧
    (∀ u s, u ∈ allPTasks p → resolve u = Except.ok s → taskParamErrors u s ≠ [] →
      TopError.taskParams u.name (taskParamErrors u s) ∈
        ValidatePipelineWithYAMLAndParams structuralErrs resolve p rawYAML) ∧
    (ValidateResultsWithContext (ptResultRefs t) (producedResults resolve p)
        (typeContextsOf resolve p) ≠ [] →
      TopError.taskResults t.name (ValidateResultsWithContext (ptResultRefs t)
          (producedResults resolve p) (typeContextsOf resolve p)) ∈
        ValidatePipelineWithYAMLAndParams structuralErrs resolve p rawYAML) := by
  refine ⟨resolution_mem_intro structuralErrs resolve p rawYAML t msg hmem hfail,
    ?_, ?_,
    fun u s hu hres hne => taskParams_mem_intro structuralErrs resolve p rawYAML
      u s hu hres hne,
    fun hne => taskResults_mem_intro structuralErrs resolve p rawYAML t hmem hne⟩
  · intro errs hin
    rcases taskParams_mem_elim structuralErrs resolve p rawYAML t.name errs hin with
      ⟨u, hu, s2, hres2, hname2, -⟩
    have hut : u = t := List.inj_on_of_nodup_map hnodup hu hmem hname2
    rw [hut, hfail] at hres2
    cases hres2
  · intro wsErrs hin errs hin2
    have hws := workspace_mem_elim structuralErrs resolve p rawYAML wsErrs hin
    rw [hws] at hin2
    rcases wsTask_mem_elim p (allTaskSpecsOf resolve p) t.name errs hin2 with ⟨ts, hlook⟩
    rcases lookup_allTaskSpecsOf resolve p t.name ts hlook with ⟨v, hv, hvname, hvres⟩
    have hvt : v = t := List.inj_on_of_nodup_map hnodup hv hmem hvname
    rw [hvt, hfail] at hvres
    cases hvres

theorem resolution_failure_isolated_witness :
    TopError.resolution "broken" "boom" ∈
      ValidatePipelineWithYAMLAndParams [] failResolver brokenPipeline none :=
  (resolution_failure_isolated [] failResolver brokenPipeline none brokenTask "boom"
    (by decide) (by decide) rfl).1

/-- The `clone` task: no parameters, no matrix, no workspace bindings. -/
def cloneTask : PipelineTask := ⟨"clone", [], [], []⟩

/-- The `build` task: an `array`-declared parameter assigned the string value
`$(tasks.clone.results.commit)`. -/
def buildTask : PipelineTask :=
  ⟨"build", [⟨"IMG", ⟨"string", "$(tasks.clone.results.commit)"⟩⟩], [], []⟩

/-- The two-task pipeline for the array-parameter scenario. -/
def c7Pipeline : PipelineSpec := ⟨[], [cloneTask, buildTask], [], [], []⟩

/-- The resolver for the scenario: `clone` produces the string result
`commit`; `build` declares the `array` parameter `IMG`. -/
def c7Resolver : PipelineTask → Except String TaskSpec := fun t =>
  if t.name == "clone" then .ok ⟨[], [⟨"commit", "string"⟩], []⟩
  else if t.name == "build" then .ok ⟨[⟨"IMG", "array", none⟩], [], []⟩
  else .error "unknown task"

/-- C7 counterexample: the Result Reference Validator does raise a
result-type-mismatch error for `$(tasks.clone.results.commit)` consumed by the
array-declared parameter, so the pipeline does not produce exactly one
type-mismatch error. -/
theorem array_param_mismatch_counterexample :
    TopError.taskResults "build"
      [.resultTypeMismatch "commit" "clone" "string" "array"
        "PipelineTask build parameter IMG" "$(tasks.clone.results.commit)"] ∈
      ValidatePipelineWithYAMLAndParams [] c7Resolver c7Pipeline none := by
  decide

/-- C7 (amended): the scenario produces exactly two type-mismatch errors —
the Parameter Validator's parameter-type mismatch (got `string`, want
`array`) and the Result Reference Validator's result-type mismatch (`commit`
defined as `string`, used as `array`) — and nothing else. -/
theorem array_param_mismatch_amended :
    ValidatePipelineWithYAMLAndParams [] c7Resolver c7Pipeline none =
      [.taskParams "build" [.paramIncorrectType "IMG" "string" "array"],
       .taskResults "build"
         [.resultTypeMismatch "commit" "clone" "string" "array"
           "PipelineTask build parameter IMG" "$(tasks.clone.results.commit)"]] := by
  decide
